import Mathlib

/-!
Verification development for the youtube-semantic-search repository.

We give a shallow embedding of the repository's text-cleaning utility
(src/scripts/clean_and_merge_dataset.py), the ingestion row-preparation
logic (src/scripts/migrate_to_vectordb.py), the search-result formatting
(src/scripts/semantic_search.py), the db_handler wrappers
(src/scripts/db_handler.py), and a spec-modelled Vector Store (the
storage engine itself is the third-party ChromaDB library, which is not
part of the repository's sources; its contract is taken from the
specification, section 4.1).

Numeric values (embedding coordinates, distances) are modelled as
rationals; Python strings are modelled as lists of characters where the
per-character structure matters.
-/

namespace CleanDataset

/-- Models the regex class matched by a Python whitespace escape on the
ASCII range (space, tab, newline, carriage return, vertical tab, form
feed).  Non-ASCII whitespace behaves identically through the pipeline
(it is turned into a single plain space either way), so restricting the
class to ASCII does not change any observable output of clean_text. -/
def pyIsSpace (c : Char) : Bool :=
  c = ' ' || c = '\t' || c = '\n' || c = '\r' || c.toNat = 11 || c.toNat = 12

/-- Models Python str.lower on the ASCII range: uppercase A-Z maps to
a-z, everything else is unchanged.  (Non-ASCII cased letters are dropped
by the character filter of clean_text in either casing.) -/
def pyLower (c : Char) : Char :=
  if 'A' ≤ c && c ≤ 'Z' then Char.ofNat (c.toNat + 32) else c

/-- The apostrophe character (code point 39). -/
def apos : Char := Char.ofNat 39

/-- The character class kept by clean_text's substitution
re.sub removing everything outside lowercase letters, digits,
whitespace, period, comma, apostrophe and hyphen. -/
def keepChar (c : Char) : Bool :=
  ('a' ≤ c && c ≤ 'z') || ('0' ≤ c && c ≤ '9') || pyIsSpace c ||
  c = '.' || c = ',' || c = apos || c = '-'

/-- First substitution of clean_text: every character outside the kept
class is replaced by a single space. -/
def substStep (l : List Char) : List Char :=
  l.map (fun c => if keepChar c then c else ' ')

/-- Worker for the whitespace-collapsing substitution: replaces each
maximal run of whitespace by one space.  The flag records whether the
previous character belonged to a whitespace run. -/
def collapseAux : Bool → List Char → List Char
  | _, [] => []
  | prevSpace, c :: rest =>
    if pyIsSpace c then
      if prevSpace then collapseAux true rest
      else ' ' :: collapseAux true rest
    else c :: collapseAux false rest

/-- Second substitution of clean_text: re.sub collapsing each maximal
whitespace run to a single space. -/
def collapseStep (l : List Char) : List Char := collapseAux false l

/-- Models str.strip: remove whitespace from both ends. -/
def stripStep (l : List Char) : List Char :=
  List.rdropWhile pyIsSpace (List.dropWhile pyIsSpace l)

/-- Embeds clean_text from src/scripts/clean_and_merge_dataset.py on the
string path (the pd.isna / non-str guard returns "" and is outside this
claim): lowercase, replace characters outside the kept class by a space,
collapse whitespace runs to single spaces, then strip. -/
def clean_text (l : List Char) : List Char :=
  stripStep (collapseStep (substStep (l.map pyLower)))

end CleanDataset

namespace VectorStore

/-- Modelled from the spec: the error taxonomy of the Vector Store
(section 7).  The store engine (ChromaDB) is not part of the
repository's sources, so its error classes are taken from the
specification. -/
inductive VSError
  | StorageUnavailable
  | DimensionMismatch
  | DuplicateIdInBatch
  | NotFound
  | InvalidArgument
  | EmbeddingFailed
deriving DecidableEq

/-- Modelled from the spec: a metadata scalar value (string, integer,
float or boolean), as a tagged union (section 9). -/
inductive MetaValue
  | s (v : String)
  | i (v : Int)
  | f (v : ℚ)
  | b (v : Bool)
deriving DecidableEq

/-- Metadata of a record: a mapping from string keys to scalar values,
modelled as an association list. -/
abbrev Metadata := List (String × MetaValue)

/-- Numeric view of a metadata value, used by ordering comparisons. -/
def MetaValue.num : MetaValue → Option ℚ
  | .i n => some (n : ℚ)
  | .f q => some q
  | _ => none

/-- Modelled from the spec: comparison operators of the metadata filter
syntax (section 6). -/
inductive FilterOp
  | eq
  | ne
  | ge
  | le
  | gt
  | lt
deriving DecidableEq

/-- Modelled from the spec: a single filter condition, either a literal
(equality) or an operator object (section 6). -/
inductive FilterCond
  | lit (v : MetaValue)
  | cmp (o : FilterOp) (v : MetaValue)
deriving DecidableEq

/-- Modelled from the spec: a metadata filter is a mapping from field
names to conditions; multiple fields are AND-ed (section 6). -/
abbrev MetadataFilter := List (String × FilterCond)

/-- Evaluates one comparison operator against a record's metadata value
x and the filter's literal v.  Ordering comparisons apply to numeric
values; non-numeric operands never match. -/
def evalCmp (o : FilterOp) (x v : MetaValue) : Bool :=
  match o with
  | .eq => decide (x = v)
  | .ne => decide (x ≠ v)
  | _ =>
    match x.num, v.num with
    | some a, some b =>
      match o with
      | .ge => decide (a ≥ b)
      | .le => decide (a ≤ b)
      | .gt => decide (a > b)
      | .lt => decide (a < b)
      | _ => false
    | _, _ => false

/-- Evaluates one filter condition against a metadata value. -/
def evalCond (cond : FilterCond) (x : MetaValue) : Bool :=
  match cond with
  | .lit v => decide (x = v)
  | .cmp o v => evalCmp o x v

/-- Modelled from the spec: filter evaluation — every filtered field
must be present in the record's metadata and satisfy its condition; a
record with a missing key for a filtered field never matches
(section 4.1).  An absent filter matches every record. -/
def evalFilter (filt : Option MetadataFilter) (md : Metadata) : Bool :=
  match filt with
  | none => true
  | some fs => fs.all (fun kv =>
      match md.lookup kv.1 with
      | some x => evalCond kv.2 x
      | none => false)

/-- Modelled from the spec: a Record of a collection — id, document,
embedding, metadata (section 3). -/
structure Record where
  id : String
  document : String
  embedding : List ℚ
  metadata : Metadata
deriving DecidableEq

/-- Modelled from the spec: a Collection — name and configuration plus
the stored records (section 3).  The distance metric's numeric function
is supplied at query time (see Collection.search). -/
structure Collection where
  name : String
  persist_directory : String
  distance_metric : String
  dimension : Nat
  records : List Record
deriving DecidableEq

/-- Inserts or replaces one record by id: if the id is present the
stored record is replaced in place, otherwise the record is appended
(spec section 3: identical id replaces in place, last-write-wins). -/
def putRecord (rs : List Record) (r : Record) : List Record :=
  if rs.any (fun x => x.id == r.id) then
    rs.map (fun x => if x.id == r.id then r else x)
  else rs ++ [r]

/-- Zips the four parallel upsert inputs into records. -/
def batchRecords : List String → List String → List (List ℚ) → List Metadata → List Record
  | id :: ids, d :: ds, e :: es, m :: ms =>
    { id := id, document := d, embedding := e, metadata := m } :: batchRecords ids ds es ms
  | _, _, _, _ => []

/-- Modelled from the spec: upsert over four parallel sequences
(section 4.1) — validates the inputs (equal nonzero lengths, non-empty
ids), rejects any embedding whose length disagrees with the collection
dimension with DimensionMismatch, rejects repeated ids within the call
with DuplicateIdInBatch, and otherwise commits every record
(replace-or-create per id), atomically. -/
def Collection.upsert (c : Collection) (ids documents : List String)
    (embeddings : List (List ℚ)) (metadatas : List Metadata) :
    Except VSError Collection :=
  if ids.isEmpty || documents.length != ids.length || embeddings.length != ids.length ||
      metadatas.length != ids.length || ids.any (fun id => id == "") then
    .error .InvalidArgument
  else if embeddings.any (fun e => e.length != c.dimension) then
    .error .DimensionMismatch
  else if ¬ ids.Nodup then
    .error .DuplicateIdInBatch
  else
    .ok { c with records :=
      (batchRecords ids documents embeddings metadatas).foldl putRecord c.records }

end VectorStore

namespace VectorStore

/-- Modelled from the spec: point lookup by exact id — returns the full
Record when present, NotFound otherwise (section 4.1). -/
def Collection.get (c : Collection) (id : String) : Except VSError Record :=
  match c.records.find? (fun r => r.id == id) with
  | some r => .ok r
  | none => .error .NotFound

/-- Modelled from the spec: delete by id — removes the Record; deletion
of a missing id is reported as NotFound, not raised as a fatal error
(section 4.1). -/
def Collection.delete (c : Collection) (id : String) : Except VSError Collection :=
  if c.records.any (fun r => r.id == id) then
    .ok { c with records := c.records.filter (fun r => !(r.id == id)) }
  else .error .NotFound

/-- Statistics snapshot, mirroring the fields produced by
db_handler.get_collection_stats. -/
structure CollectionStats where
  total_videos : Nat
  collection_name : String
  persist_directory : String
  distance_metric : String
deriving DecidableEq

/-- Embeds VideoVectorDB.get_collection_stats from
src/scripts/db_handler.py: the record count together with the
collection's configuration.  The count is exact (spec section 4.1). -/
def Collection.get_collection_stats (c : Collection) : CollectionStats :=
  { total_videos := c.records.length
    collection_name := c.name
    persist_directory := c.persist_directory
    distance_metric := c.distance_metric }

/-- State visible to a caller after an upsert attempt: the new
collection on success, the unchanged collection on failure (spec
section 4.1: no partial application on failure). -/
def Collection.runUpsert (c : Collection) (ids documents : List String)
    (embeddings : List (List ℚ)) (metadatas : List Metadata) : Collection :=
  match c.upsert ids documents embeddings metadatas with
  | .ok c' => c'
  | .error _ => c

/-- Lexicographic strict comparison of character lists by code point,
used to order record ids. -/
def strLtb : List Char → List Char → Bool
  | [], [] => false
  | [], _ :: _ => true
  | _ :: _, [] => false
  | c :: cs, d :: ds => if c < d then true else if d < c then false else strLtb cs ds

/-- Ascending (strict) id order: lexicographic by code point. -/
def idLt (a b : String) : Prop := strLtb a.data b.data = true

/-- Reflexive id order. -/
def idLe (a b : String) : Prop := idLt a b ∨ a = b

/-- Unfolding of the lexicographic comparison on two nonempty lists. -/
theorem strLtb_cons_iff {c d : Char} {cs ds : List Char} :
    strLtb (c :: cs) (d :: ds) = true ↔ c < d ∨ (c = d ∧ strLtb cs ds = true) := by
  simp only [strLtb]
  split_ifs with h1 h2
  · simp [h1]
  · simp [h1, (ne_of_lt h2).symm]
  · have hcd : c = d := le_antisymm (not_lt.mp h2) (not_lt.mp h1)
    simp [h1, hcd]

/-- Transitivity of the lexicographic comparison. -/
theorem strLtb_trans {xs ys zs : List Char} (h1 : strLtb xs ys = true)
    (h2 : strLtb ys zs = true) : strLtb xs zs = true := by
  induction xs generalizing ys zs with
  | nil =>
    cases ys with
    | nil => simp [strLtb] at h1
    | cons d ds =>
      cases zs with
      | nil => simp [strLtb] at h2
      | cons e es => simp [strLtb]
  | cons c cs ih =>
    cases ys with
    | nil => simp [strLtb] at h1
    | cons d ds =>
      cases zs with
      | nil => simp [strLtb] at h2
      | cons e es =>
        rcases strLtb_cons_iff.mp h1 with hcd | ⟨hcd, h1x⟩
        · rcases strLtb_cons_iff.mp h2 with hde | ⟨hde, h2x⟩
          · exact strLtb_cons_iff.mpr (Or.inl (hcd.trans hde))
          · exact strLtb_cons_iff.mpr (Or.inl (hde ▸ hcd))
        · rcases strLtb_cons_iff.mp h2 with hde | ⟨hde, h2x⟩
          · exact strLtb_cons_iff.mpr (Or.inl (hcd ▸ hde))
          · exact strLtb_cons_iff.mpr (Or.inr ⟨hcd.trans hde, ih h1x h2x⟩)

/-- Totality (trichotomy) of the lexicographic comparison. -/
theorem strLtb_total : ∀ (xs ys : List Char),
    strLtb xs ys = true ∨ strLtb ys xs = true ∨ xs = ys := by
  intro xs
  induction xs with
  | nil =>
    intro ys
    cases ys with
    | nil => exact Or.inr (Or.inr rfl)
    | cons d ds => exact Or.inl (by simp [strLtb])
  | cons c cs ih =>
    intro ys
    cases ys with
    | nil => exact Or.inr (Or.inl (by simp [strLtb]))
    | cons d ds =>
      rcases lt_trichotomy c d with h | h | h
      · exact Or.inl (strLtb_cons_iff.mpr (Or.inl h))
      · subst h
        rcases ih ds with hx | hx | hx
        · exact Or.inl (strLtb_cons_iff.mpr (Or.inr ⟨rfl, hx⟩))
        · exact Or.inr (Or.inl (strLtb_cons_iff.mpr (Or.inr ⟨rfl, hx⟩)))
        · exact Or.inr (Or.inr (by rw [hx]))
      · exact Or.inr (Or.inl (strLtb_cons_iff.mpr (Or.inl h)))

/-- Two strings with equal character data are equal. -/
theorem string_data_eq {a b : String} (h : a.data = b.data) : a = b := by
  cases a
  cases b
  exact congrArg String.mk h

/-- Transitivity of the reflexive id order. -/
theorem idLe_trans {a b c : String} (h1 : idLe a b) (h2 : idLe b c) : idLe a c := by
  rcases h1 with h1 | rfl
  · rcases h2 with h2 | rfl
    · exact Or.inl (strLtb_trans h1 h2)
    · exact Or.inl h1
  · exact h2

/-- Search result ordering: ascending distance, ties broken by
ascending id (spec section 4.1). -/
def resultLe (a b : String × ℚ × Metadata) : Prop :=
  a.2.1 < b.2.1 ∨ (a.2.1 = b.2.1 ∧ idLe a.1 b.1)

instance : DecidableRel resultLe := fun a b =>
  decidable_of_iff
    (a.2.1 < b.2.1 ∨ (a.2.1 = b.2.1 ∧ (strLtb a.1.data b.1.data = true ∨ a.1 = b.1)))
    Iff.rfl

instance : IsTotal (String × ℚ × Metadata) resultLe := by
  constructor
  intro a b
  rcases lt_trichotomy a.2.1 b.2.1 with h | h | h
  · exact Or.inl (Or.inl h)
  · rcases strLtb_total a.1.data b.1.data with hx | hx | hx
    · exact Or.inl (Or.inr ⟨h, Or.inl hx⟩)
    · exact Or.inr (Or.inr ⟨h.symm, Or.inl hx⟩)
    · exact Or.inl (Or.inr ⟨h, Or.inr (string_data_eq hx)⟩)
  · exact Or.inr (Or.inl h)

instance : IsTrans (String × ℚ × Metadata) resultLe := by
  constructor
  intro a b c hab hbc
  rcases hab with h1 | ⟨h1, h1x⟩
  · rcases hbc with h2 | ⟨h2, _⟩
    · exact Or.inl (h1.trans h2)
    · exact Or.inl (h2 ▸ h1)
  · rcases hbc with h2 | ⟨h2, h2x⟩
    · exact Or.inl (h1 ▸ h2)
    · exact Or.inr ⟨h1.trans h2, idLe_trans h1x h2x⟩

/-- Modelled from the spec: similarity search (section 4.1).  Rejects a
non-positive top_k with InvalidArgument and a query embedding of the
wrong length with DimensionMismatch; otherwise ranks the records whose
metadata satisfies the filter by distance to the query (ties by
ascending id) and returns the first top_k of them as
(id, distance, metadata) triples.  The collection's distance metric is
a real-valued function of two embeddings; it is passed as the argument
dist since its numeric definition (cosine and friends) lives outside
the repository's sources. -/
def Collection.search (c : Collection) (dist : List ℚ → List ℚ → ℚ)
    (query_embedding : List ℚ) (top_k : Int)
    (metadata_filter : Option MetadataFilter) :
    Except VSError (List (String × ℚ × Metadata)) :=
  if top_k ≤ 0 then .error .InvalidArgument
  else if query_embedding.length ≠ c.dimension then .error .DimensionMismatch
  else
    .ok ((List.insertionSort resultLe
      ((c.records.filter (fun r => evalFilter metadata_filter r.metadata)).map
        (fun r => (r.id, dist query_embedding r.embedding, r.metadata)))).take top_k.toNat)

end VectorStore

namespace DbHandler

open VectorStore

/-- Embeds VideoVectorDB.get_video_by_id from src/scripts/db_handler.py.
The store call is wrapped in try/except: a hit returns the record's
data, a miss returns None (the engine's get returns empty id lists for
a missing id), and a raised store-level failure is caught, printed, and
returned as None.  The store call's outcome is the argument:
.ok (some r) is a hit, .ok none a miss, .error e a raised failure. -/
def get_video_by_id (store_result : Except VSError (Option Record)) :
    Option Record :=
  match store_result with
  | .ok (some r) => some r
  | .ok none => none
  | .error _ => none

/-- Embeds VideoVectorDB.update_video from src/scripts/db_handler.py:
returns True when the store's update call succeeds and False when it
raises (the exception is caught and printed). -/
def update_video (store_result : Except VSError Unit) : Bool :=
  match store_result with
  | .ok _ => true
  | .error _ => false

/-- Embeds VideoVectorDB.delete_video from src/scripts/db_handler.py:
returns True when the store's delete call succeeds and False when it
raises (the exception is caught and printed). -/
def delete_video (store_result : Except VSError Unit) : Bool :=
  match store_result with
  | .ok _ => true
  | .error _ => false

/-- Embeds VideoVectorDB.clear_collection from src/scripts/db_handler.py:
returns True when deleting and recreating the collection succeeds and
False when the store raises (the exception is caught and printed). -/
def clear_collection (store_result : Except VSError Collection) : Bool :=
  match store_result with
  | .ok _ => true
  | .error _ => false

end DbHandler

namespace Migrate

open VectorStore

/-- Models Python str() applied to a possibly-missing pandas cell: a
missing cell holds the float nan, whose str() is "nan"; a present
string cell is returned as-is. -/
def pyStr : Option String → String
  | none => "nan"
  | some v => v

/-- Embeds parse_embedding_string from
src/scripts/migrate_to_vectordb.py.  The JSON parser json.loads is a
library collaborator outside the sources and is abstracted as the
argument json_loads; a missing cell (NaN, a float) makes json.loads
raise TypeError, which the function catches, returning None, and a
parse failure (JSONDecodeError) likewise returns None (encoded in
json_loads returning none). -/
def parse_embedding_string (json_loads : String → Option (List ℚ)) :
    Option String → Option (List ℚ)
  | none => none
  | some s => json_loads s

/-- One input row of the migration CSV as seen through pandas: each used
column is either missing (NaN) or carries a value of the column's type. -/
structure Row where
  id : Option String
  transcript : Option String
  embeddings : Option String
  title : Option String
  channel_title : Option String
  viewCount : Option Int
  duration_seconds : Option Int
  publishedAt : Option String
  likeCount : Option Int
  commentCount : Option Int
deriving DecidableEq

/-- The metadata dictionary built for one row by prepare_data_for_db:
string fields default to "" and numeric fields to 0 when the cell is
missing. -/
def rowMetadata (r : Row) : Metadata :=
  [("title", .s (r.title.getD "")),
   ("channel_title", .s (r.channel_title.getD "")),
   ("view_count", .i (r.viewCount.getD 0)),
   ("duration_seconds", .i (r.duration_seconds.getD 0)),
   ("published_at", .s (r.publishedAt.getD "")),
   ("like_count", .i (r.likeCount.getD 0)),
   ("comment_count", .i (r.commentCount.getD 0))]

/-- The four parallel output lists of prepare_data_for_db together with
its failure counter. -/
structure PrepResult where
  video_ids : List String
  transcripts : List String
  embeddings_list : List (List ℚ)
  metadata_list : List Metadata
  failed_count : Nat
deriving DecidableEq

/-- Embeds the row loop of prepare_data_for_db from
src/scripts/migrate_to_vectordb.py: for each row, parse the serialized
embedding — on failure increment failed_count and skip the row —
otherwise append str(row id) (note: a missing id stringifies to "nan"
and the row is not skipped), the transcript with default "", the parsed
embedding, and the metadata dictionary. -/
def prepare_data_for_db (json_loads : String → Option (List ℚ)) :
    List Row → PrepResult
  | [] =>
    { video_ids := [], transcripts := [], embeddings_list := []
      metadata_list := [], failed_count := 0 }
  | r :: rest =>
    let res := prepare_data_for_db json_loads rest
    match parse_embedding_string json_loads r.embeddings with
    | none => { res with failed_count := res.failed_count + 1 }
    | some emb =>
      { video_ids := pyStr r.id :: res.video_ids
        transcripts := r.transcript.getD "" :: res.transcripts
        embeddings_list := emb :: res.embeddings_list
        metadata_list := rowMetadata r :: res.metadata_list
        failed_count := res.failed_count }

end Migrate

namespace VideoSemanticSearch

open VectorStore

/-- Python's round-to-nearest-integer with ties to even (the rounding
used by the built-in round). -/
def roundHalfEven (q : ℚ) : ℤ :=
  if q - ⌊q⌋ < 1 / 2 then ⌊q⌋
  else if q - ⌊q⌋ > 1 / 2 then ⌊q⌋ + 1
  else if 2 ∣ ⌊q⌋ then ⌊q⌋ else ⌊q⌋ + 1

/-- Models Python round(x, 4): round half to even at four decimal
places.  (Python rounds a binary double; values are modelled here as
exact rationals and rounded exactly.) -/
def round4 (q : ℚ) : ℚ := (roundHalfEven (q * 10000) : ℚ) / 10000

/-- One formatted search result, mirroring the dictionary built by
VideoSemanticSearch.search; the metadata-derived display fields keep
their dictionary values. -/
structure SearchResult where
  rank : Nat
  video_id : String
  title : MetaValue
  channel : MetaValue
  views : MetaValue
  duration : MetaValue
  similarity_score : ℚ
  youtube_url : String
deriving DecidableEq

/-- Embeds the result-formatting loop of VideoSemanticSearch.search from
src/scripts/semantic_search.py.  The query-embedding model and the
database are the method's collaborators; their combined output — the
(video_ids, distances, metadatas) triple returned by db.search_videos —
is taken as the argument.  For index i (0-based), the result has rank
i + 1, display fields looked up with dict.get defaults, and
similarity_score round(1 - distance, 4) (cosine distance converted to a
similarity and rounded for display). -/
def search (video_ids : List String) (distances : List ℚ)
    (metadatas : List Metadata) : List SearchResult :=
  (List.enum (video_ids.zip (distances.zip metadatas))).map
    (fun p =>
      { rank := p.1 + 1
        video_id := p.2.1
        title := ((p.2.2.2).lookup "title").getD (.s "N/A")
        channel := ((p.2.2.2).lookup "channel_title").getD (.s "N/A")
        views := ((p.2.2.2).lookup "view_count").getD (.i 0)
        duration := ((p.2.2.2).lookup "duration_seconds").getD (.i 0)
        similarity_score := round4 (1 - p.2.2.1)
        youtube_url := "https://youtu.be/" ++ p.2.1 })

end VideoSemanticSearch

open VectorStore

/-- C8: search with a non-positive top_k fails with InvalidArgument, for
every collection, distance function, query embedding and filter; the
call is rejected before any result is computed. -/
theorem search_topk_nonpositive_invalid (c : Collection)
    (dist : List ℚ → List ℚ → ℚ) (q : List ℚ) (k : Int)
    (filt : Option MetadataFilter) (hk : k ≤ 0) :
    c.search dist q k filt = .error .InvalidArgument := by
  unfold Collection.search
  rw [if_pos hk]

/-- Witness for search_topk_nonpositive_invalid at top_k = 0 on an
empty cosine collection of dimension 1. -/
theorem search_topk_nonpositive_invalid_witness :
    (0 : Int) ≤ 0 ∧
    Collection.search
      { name := "youtube_videos", persist_directory := "data/vectordb",
        distance_metric := "cosine", dimension := 1, records := [] }
      (fun _ _ => 0) [0] 0 none = .error .InvalidArgument :=
  ⟨le_refl 0,
   search_topk_nonpositive_invalid _ (fun _ _ => 0) [0] 0 none (le_refl 0)⟩

/-- C6: a store-level failure raised inside get, update, delete or clear
is reflected to the wrapper's caller as the operation's documented
failure value (None for get, False for the boolean operations) and is
never swallowed into a successful result; a successful store call is
conversely reported as a success value. -/
theorem store_failures_propagate (e : VSError) :
    DbHandler.get_video_by_id (.error e) = none ∧
    DbHandler.update_video (.error e) = false ∧
    DbHandler.delete_video (.error e) = false ∧
    DbHandler.clear_collection (.error e) = false ∧
    (∀ r : Record, DbHandler.get_video_by_id (.ok (some r)) = some r) ∧
    DbHandler.update_video (.ok ()) = true ∧
    DbHandler.delete_video (.ok ()) = true ∧
    ∀ c : Collection, DbHandler.clear_collection (.ok c) = true :=
  ⟨rfl, rfl, rfl, rfl, fun _ => rfl, rfl, rfl, fun _ => rfl⟩

/-- C5: deleting an id and then getting it yields NotFound, and deleting
an id that no stored record carries is itself reported as NotFound — a
returned error value, not a fatal failure. -/
theorem delete_then_get_notfound (c : Collection) (id : String) :
    (∀ c', c.delete id = .ok c' → c'.get id = .error .NotFound) ∧
    ((∀ r ∈ c.records, r.id ≠ id) → c.delete id = .error .NotFound) := by
  constructor
  · intro c' h
    unfold Collection.delete at h
    split at h
    · cases h
      unfold Collection.get
      have hnone : (c.records.filter (fun r => !(r.id == id))).find?
          (fun r => r.id == id) = none := by
        rw [List.find?_eq_none]
        intro x hx
        have := List.of_mem_filter hx
        simp only [Bool.not_eq_true'] at this
        simp [this]
      rw [hnone]
    · cases h
  · intro h
    unfold Collection.delete
    have : c.records.any (fun r => r.id == id) = false := by
      rw [Bool.eq_false_iff]
      intro hany
      rcases List.any_eq_true.mp hany with ⟨r, hr, hid⟩
      exact h r hr (by simpa using hid)
    simp [this]

/-- Witness for delete_then_get_notfound: a one-record collection where
deleting the present id "a" empties it (so get "a" is NotFound), and a
collection whose only record has id "a" reports NotFound for
delete "b". -/
theorem delete_then_get_notfound_witness :
    Collection.get
      { name := "youtube_videos", persist_directory := "data/vectordb",
        distance_metric := "cosine", dimension := 1, records := [] } "a" =
      .error .NotFound ∧
    Collection.delete
      { name := "youtube_videos", persist_directory := "data/vectordb",
        distance_metric := "cosine", dimension := 1,
        records := [{ id := "a", document := "d", embedding := [1],
                      metadata := [] }] } "b" = .error .NotFound :=
  ⟨(delete_then_get_notfound
      { name := "youtube_videos", persist_directory := "data/vectordb",
        distance_metric := "cosine", dimension := 1,
        records := [{ id := "a", document := "d", embedding := [1],
                      metadata := [] }] } "a").1
      { name := "youtube_videos", persist_directory := "data/vectordb",
        distance_metric := "cosine", dimension := 1, records := [] }
      (by rfl),
   (delete_then_get_notfound _ "b").2 (by decide)⟩

/-- C3: a batch upsert with otherwise-valid inputs in which some
embedding's length disagrees with the collection's dimension fails with
DimensionMismatch, and the caller-visible collection — every stored
record, hence also the stats record count — is exactly the old one:
nothing of the batch is committed. -/
theorem upsert_dim_mismatch_atomic (c : Collection) (ids documents : List String)
    (embeddings : List (List ℚ)) (metadatas : List Metadata)
    (hne : ids ≠ [])
    (hd : documents.length = ids.length) (he : embeddings.length = ids.length)
    (hm : metadatas.length = ids.length)
    (hids : ∀ id ∈ ids, id ≠ "")
    (hbad : ∃ e ∈ embeddings, e.length ≠ c.dimension) :
    c.upsert ids documents embeddings metadatas = .error .DimensionMismatch ∧
    c.runUpsert ids documents embeddings metadatas = c ∧
    (c.runUpsert ids documents embeddings metadatas).get_collection_stats.total_videos
      = c.get_collection_stats.total_videos := by
  have h1 : (ids.isEmpty || documents.length != ids.length ||
      embeddings.length != ids.length || metadatas.length != ids.length ||
      ids.any (fun id => id == "")) = false := by
    simp only [Bool.or_eq_false_iff, List.isEmpty_eq_false, bne_eq_false_iff_eq,
      List.any_eq_false]
    refine ⟨⟨⟨⟨hne, hd⟩, he⟩, hm⟩, ?_⟩
    intro id hid
    simpa using hids id hid
  have h2 : (embeddings.any fun e => e.length != c.dimension) = true := by
    rcases hbad with ⟨e, hmem, hlen⟩
    exact List.any_eq_true.mpr ⟨e, hmem, by simpa using hlen⟩
  have hfail : c.upsert ids documents embeddings metadatas = .error .DimensionMismatch := by
    unfold Collection.upsert
    simp [h1, h2]
  refine ⟨hfail, ?_, ?_⟩ <;> unfold Collection.runUpsert <;> rw [hfail]

/-- Witness for upsert_dim_mismatch_atomic: a dimension-1 collection
holding one record, upserting id "a" with the length-2 embedding
[1, 2]. -/
theorem upsert_dim_mismatch_atomic_witness :
    (∃ e ∈ [[(1 : ℚ), 2]], e.length ≠ 1) ∧
    Collection.upsert
      { name := "youtube_videos", persist_directory := "data/vectordb",
        distance_metric := "cosine", dimension := 1,
        records := [{ id := "b", document := "t", embedding := [0],
                      metadata := [] }] }
      ["a"] ["doc"] [[(1 : ℚ), 2]] [[]] = .error .DimensionMismatch ∧
    Collection.runUpsert
      { name := "youtube_videos", persist_directory := "data/vectordb",
        distance_metric := "cosine", dimension := 1,
        records := [{ id := "b", document := "t", embedding := [0],
                      metadata := [] }] }
      ["a"] ["doc"] [[(1 : ℚ), 2]] [[]] =
      { name := "youtube_videos", persist_directory := "data/vectordb",
        distance_metric := "cosine", dimension := 1,
        records := [{ id := "b", document := "t", embedding := [0],
                      metadata := [] }] } :=
  ⟨⟨[(1 : ℚ), 2], by decide, by decide⟩,
   (upsert_dim_mismatch_atomic _ ["a"] ["doc"] [[(1 : ℚ), 2]] [[]]
      (by decide) rfl rfl rfl (by decide)
      ⟨[(1 : ℚ), 2], by decide, by decide⟩).1,
   (upsert_dim_mismatch_atomic _ ["a"] ["doc"] [[(1 : ℚ), 2]] [[]]
      (by decide) rfl rfl rfl (by decide)
      ⟨[(1 : ℚ), 2], by decide, by decide⟩).2.1⟩

/-- Replacing the (present) id of r in a record list and then looking it
up finds exactly r. -/
theorem find?_map_put {as : List Record} {r : Record}
    (h : as.any (fun x => x.id == r.id) = true) :
    (as.map (fun x => if x.id == r.id then r else x)).find?
      (fun x => x.id == r.id) = some r := by
  induction as with
  | nil => simp at h
  | cons a as ih =>
    simp only [List.map_cons]
    by_cases ha : (a.id == r.id) = true
    · rw [if_pos ha]
      exact List.find?_cons_of_pos _ (by simp)
    · rw [if_neg ha, List.find?_cons_of_neg _ (by simp [ha])]
      apply ih
      simpa [List.any_cons, ha] using h

/-- Replacing the records carrying r.id leaves lookups of any other id
unchanged. -/
theorem find?_map_put_other {as : List Record} {r : Record} {id : String}
    (hne : id ≠ r.id) :
    (as.map (fun x => if x.id == r.id then r else x)).find?
      (fun x => x.id == id) = as.find? (fun x => x.id == id) := by
  induction as with
  | nil => rfl
  | cons a as ih =>
    simp only [List.map_cons]
    by_cases har : (a.id == r.id) = true
    · rw [if_pos har]
      have har' : a.id = r.id := by simpa using har
      rw [List.find?_cons_of_neg _ (by simp [Ne.symm hne]),
        List.find?_cons_of_neg _ (by simp [har', Ne.symm hne])]
      exact ih
    · rw [if_neg har]
      by_cases hai : (a.id == id) = true
      · have h1 : List.find? (fun x => x.id == id)
            (a :: as.map (fun x => if x.id == r.id then r else x)) = some a :=
          List.find?_cons_of_pos _ hai
        have h2 : List.find? (fun x => x.id == id) (a :: as) = some a :=
          List.find?_cons_of_pos _ hai
        rw [h1, h2]
      · rw [List.find?_cons_of_neg _ (by simp [hai]),
          List.find?_cons_of_neg _ (by simp [hai])]
        exact ih

/-- Upserting r and then looking up r.id finds exactly r (both when the
id was present — overwrite — and when it was appended). -/
theorem find?_putRecord_self (rs : List Record) (r : Record) :
    (putRecord rs r).find? (fun x => x.id == r.id) = some r := by
  unfold putRecord
  by_cases h : rs.any (fun x => x.id == r.id) = true
  · rw [if_pos h]
    exact find?_map_put h
  · rw [if_neg h, List.find?_append]
    have hnone : rs.find? (fun x => x.id == r.id) = none := by
      rw [List.find?_eq_none]
      intro x hx hpx
      exact h (List.any_eq_true.mpr ⟨x, hx, hpx⟩)
    rw [hnone]
    simp

/-- Upserting r leaves lookups of any other id unchanged. -/
theorem find?_putRecord_other (rs : List Record) (r : Record) (id : String)
    (hne : id ≠ r.id) :
    (putRecord rs r).find? (fun x => x.id == id) = rs.find? (fun x => x.id == id) := by
  unfold putRecord
  by_cases h : rs.any (fun x => x.id == r.id) = true
  · rw [if_pos h]
    exact find?_map_put_other hne
  · rw [if_neg h, List.find?_append]
    have : List.find? (fun x => x.id == id) [r] = none := by
      simp [Ne.symm hne]
    rw [this]
    cases hfind : rs.find? (fun x => x.id == id) <;> simp

/-- Folding a batch of records none of which carries the id leaves
lookups of that id unchanged. -/
theorem find?_foldl_putRecord_untouched (batch : List Record) (rs : List Record)
    (id : String) (h : ∀ x ∈ batch, id ≠ x.id) :
    (batch.foldl putRecord rs).find? (fun x => x.id == id)
      = rs.find? (fun x => x.id == id) := by
  induction batch generalizing rs with
  | nil => rfl
  | cons b bs ih =>
    rw [List.foldl_cons, ih _ (fun x hx => h x (List.mem_cons_of_mem _ hx))]
    exact find?_putRecord_other rs b id (h b (List.mem_cons_self _ _))

/-- Folding a batch with pairwise-distinct ids over any store and then
looking up the id of a batch member finds exactly that member. -/
theorem find?_foldl_putRecord_mem (batch : List Record) (rs : List Record)
    (r : Record) (hr : r ∈ batch) (hnodup : (batch.map Record.id).Nodup) :
    (batch.foldl putRecord rs).find? (fun x => x.id == r.id) = some r := by
  induction batch generalizing rs with
  | nil => cases hr
  | cons b bs ih =>
    have hmap : (b.id :: bs.map Record.id).Nodup := by simpa using hnodup
    rw [List.foldl_cons]
    rcases List.mem_cons.mp hr with rfl | hr'
    · have hnot : ∀ x ∈ bs, r.id ≠ x.id := by
        intro x hx heq
        exact (List.nodup_cons.mp hmap).1 (heq ▸ List.mem_map_of_mem Record.id hx)
      rw [find?_foldl_putRecord_untouched bs _ r.id hnot]
      exact find?_putRecord_self rs r
    · exact ih (putRecord rs b) hr' (by simpa using (List.nodup_cons.mp hmap).2)

/-- The ids of a zipped batch are exactly the ids argument (given the
parallel lists have equal lengths). -/
theorem batchRecords_map_id (ids : List String) :
    ∀ (documents : List String) (embeddings : List (List ℚ))
      (metadatas : List Metadata),
    documents.length = ids.length → embeddings.length = ids.length →
    metadatas.length = ids.length →
    (batchRecords ids documents embeddings metadatas).map Record.id = ids := by
  induction ids with
  | nil =>
    intro ds es ms h1 _ _
    rw [List.length_nil, List.length_eq_zero] at h1
    subst h1
    rfl
  | cons id ids ih =>
    intro ds es ms h1 h2 h3
    cases ds with
    | nil => simp at h1
    | cons d ds =>
      cases es with
      | nil => simp at h2
      | cons e es =>
        cases ms with
        | nil => simp at h3
        | cons m ms =>
          simp only [batchRecords, List.map_cons]
          rw [ih ds es ms (by simpa using h1) (by simpa using h2) (by simpa using h3)]

/-- The record built from position i of the four parallel lists is a
member of the zipped batch. -/
theorem batchRecords_mem (ids : List String) :
    ∀ (documents : List String) (embeddings : List (List ℚ))
      (metadatas : List Metadata) (i : Nat)
      (hi : i < ids.length) (hd : i < documents.length)
      (he : i < embeddings.length) (hm : i < metadatas.length),
    ({ id := ids.get ⟨i, hi⟩, document := documents.get ⟨i, hd⟩,
       embedding := embeddings.get ⟨i, he⟩,
       metadata := metadatas.get ⟨i, hm⟩ } : Record) ∈
      batchRecords ids documents embeddings metadatas := by
  induction ids with
  | nil =>
    intro ds es ms i hi
    simp at hi
  | cons id ids ih =>
    intro ds es ms i hi hd he hm
    cases ds with
    | nil => simp at hd
    | cons d ds =>
      cases es with
      | nil => simp at he
      | cons e es =>
        cases ms with
        | nil => simp at hm
        | cons m ms =>
          cases i with
          | zero => exact List.mem_cons_self _ _
          | succ j =>
            exact List.mem_cons_of_mem _
              (ih ds es ms j (by simpa using hi) (by simpa using hd)
                (by simpa using he) (by simpa using hm))

/-- C1: when a batch upsert succeeds, getting any ids.get i of the batch
returns exactly the record committed at position i — id, document,
embedding and metadata all from the batch (a full replacement of any
previously stored record, never a merge, never an error). -/
theorem upsert_overwrites_then_get (c : Collection) (ids documents : List String)
    (embeddings : List (List ℚ)) (metadatas : List Metadata) (c' : Collection)
    (i : Nat) (hi : i < ids.length) (hd : i < documents.length)
    (he : i < embeddings.length) (hm : i < metadatas.length)
    (h : c.upsert ids documents embeddings metadatas = .ok c') :
    c'.get (ids.get ⟨i, hi⟩) = .ok
      { id := ids.get ⟨i, hi⟩, document := documents.get ⟨i, hd⟩,
        embedding := embeddings.get ⟨i, he⟩,
        metadata := metadatas.get ⟨i, hm⟩ } := by
  unfold Collection.upsert at h
  split at h
  · exact absurd h (by simp)
  split at h
  · exact absurd h (by simp)
  split at h
  · exact absurd h (by simp)
  rename_i hvalid hdim hnodup
  rw [Bool.not_eq_true, Bool.or_eq_false_iff, Bool.or_eq_false_iff,
    Bool.or_eq_false_iff, Bool.or_eq_false_iff] at hvalid
  obtain ⟨⟨⟨⟨_, hd'⟩, he'⟩, hm'⟩, _⟩ := hvalid
  rw [bne_eq_false_iff_eq] at hd' he' hm'
  rw [not_not] at hnodup
  injection h with h'
  subst h'
  unfold Collection.get
  have hmem := batchRecords_mem ids documents embeddings metadatas i hi hd he hm
  have hnd : ((batchRecords ids documents embeddings metadatas).map Record.id).Nodup := by
    rw [batchRecords_map_id ids documents embeddings metadatas hd' he' hm']
    exact hnodup
  have hfind := find?_foldl_putRecord_mem
    (batchRecords ids documents embeddings metadatas) c.records _ hmem hnd
  rw [hfind]

/-- Witness for upsert_overwrites_then_get: a dimension-1 collection
already holding id "a" with document "old"; upserting the batch
["a", "b"] succeeds and get "a" returns exactly the new record. -/
theorem upsert_overwrites_then_get_witness :
    (0 : Nat) < 2 ∧
    Collection.get
      { name := "youtube_videos", persist_directory := "data/vectordb",
        distance_metric := "cosine", dimension := 1,
        records := [{ id := "a", document := "new", embedding := [2],
                      metadata := [("view_count", MetaValue.i 7)] },
                    { id := "b", document := "doc b", embedding := [3],
                      metadata := [] }] }
      (["a", "b"].get ⟨0, by decide⟩) = .ok
      { id := ["a", "b"].get ⟨0, by decide⟩,
        document := ["new", "doc b"].get ⟨0, by decide⟩,
        embedding := [[(2 : ℚ)], [3]].get ⟨0, by decide⟩,
        metadata := [[("view_count", MetaValue.i 7)], []].get ⟨0, by decide⟩ } :=
  ⟨by decide,
   upsert_overwrites_then_get
     { name := "youtube_videos", persist_directory := "data/vectordb",
       distance_metric := "cosine", dimension := 1,
       records := [{ id := "a", document := "old", embedding := [1],
                     metadata := [("view_count", MetaValue.i 3)] }] }
     ["a", "b"] ["new", "doc b"] [[(2 : ℚ)], [3]]
     [[("view_count", MetaValue.i 7)], []]
     { name := "youtube_videos", persist_directory := "data/vectordb",
       distance_metric := "cosine", dimension := 1,
       records := [{ id := "a", document := "new", embedding := [2],
                     metadata := [("view_count", MetaValue.i 7)] },
                   { id := "b", document := "doc b", embedding := [3],
                     metadata := [] }] }
     0 (by decide) (by decide) (by decide) (by decide) (by rfl)⟩

/-- C2: a successful search with top_k = k ≥ 1 on a collection with
pairwise-distinct record ids returns at most k results, sorted by
non-decreasing distance (every earlier result's distance is ≤ every
later one's, in particular adjacent pairs), and any two results with
equal distance appear in strictly ascending id order. -/
theorem search_results_sorted (c : Collection) (dist : List ℚ → List ℚ → ℚ)
    (q : List ℚ) (k : Int) (filt : Option MetadataFilter)
    (res : List (String × ℚ × Metadata))
    (hk : 1 ≤ k) (huniq : (c.records.map Record.id).Nodup)
    (h : c.search dist q k filt = .ok res) :
    (res.length : Int) ≤ k ∧
    res.Pairwise (fun a b => a.2.1 ≤ b.2.1) ∧
    res.Pairwise (fun a b => a.2.1 = b.2.1 → idLt a.1 b.1) := by
  unfold Collection.search at h
  split at h
  · exact absurd h (by simp)
  split at h
  · exact absurd h (by simp)
  injection h with hres
  subst hres
  refine ⟨?_, ?_, ?_⟩
  · have h1 := List.length_take_le k.toNat
      (List.insertionSort resultLe
        ((c.records.filter fun r => evalFilter filt r.metadata).map
          (fun r => (r.id, dist q r.embedding, r.metadata))))
    omega
  · have hsorted : (List.insertionSort resultLe
        ((c.records.filter fun r => evalFilter filt r.metadata).map
          (fun r => (r.id, dist q r.embedding, r.metadata)))).Pairwise resultLe :=
      List.sorted_insertionSort resultLe _
    exact ((hsorted.sublist (List.take_sublist _ _)).imp
      (fun hab => hab.elim le_of_lt (fun hx => le_of_eq hx.1)))
  · have hsorted : (List.insertionSort resultLe
        ((c.records.filter fun r => evalFilter filt r.metadata).map
          (fun r => (r.id, dist q r.embedding, r.metadata)))).Pairwise resultLe :=
      List.sorted_insertionSort resultLe _
    have htake := hsorted.sublist (List.take_sublist k.toNat _)
    have h2 : ((c.records.filter fun r => evalFilter filt r.metadata).map
        (fun r => (r.id, dist q r.embedding, r.metadata))).map Prod.fst =
        (c.records.filter fun r => evalFilter filt r.metadata).map Record.id := by
      rw [List.map_map]
      rfl
    have h3 : ((c.records.filter fun r => evalFilter filt r.metadata).map
        Record.id).Nodup :=
      List.Nodup.sublist (List.Sublist.map Record.id (List.filter_sublist _)) huniq
    have h5 : ((List.insertionSort resultLe
        ((c.records.filter fun r => evalFilter filt r.metadata).map
          (fun r => (r.id, dist q r.embedding, r.metadata)))).map Prod.fst).Nodup := by
      refine ((List.perm_insertionSort resultLe _).map Prod.fst).nodup_iff.mpr ?_
      rw [h2]
      exact h3
    have hnd := List.Nodup.sublist
      (List.Sublist.map Prod.fst (List.take_sublist k.toNat _)) h5
    have hne := (List.pairwise_map).mp hnd
    refine (htake.and hne).imp ?_
    intro a b hab heq
    rcases hab with ⟨hle | ⟨_, hid⟩, hneq⟩
    · exact absurd heq (ne_of_lt hle)
    · exact hid.resolve_right hneq

/-- Witness for search_results_sorted: two records at equal distance 1
from the query under a head-of-embedding metric; the result lists both,
tie-broken into ascending id order "a" before "b". -/
theorem search_results_sorted_witness :
    (1 : Int) ≤ 2 ∧
    ((([{ id := "b", document := "db", embedding := [1],
          metadata := [] },
        { id := "a", document := "da", embedding := [1],
          metadata := [] }] : List Record).map Record.id).Nodup) ∧
    ((([("a", (1 : ℚ), ([] : Metadata)), ("b", (1 : ℚ), ([] : Metadata))].length : Int) ≤ 2) ∧
     ([("a", (1 : ℚ), ([] : Metadata)), ("b", (1 : ℚ), ([] : Metadata))].Pairwise
        (fun a b => a.2.1 ≤ b.2.1)) ∧
     ([("a", (1 : ℚ), ([] : Metadata)), ("b", (1 : ℚ), ([] : Metadata))].Pairwise
        (fun a b => a.2.1 = b.2.1 → idLt a.1 b.1))) :=
  ⟨by decide, by decide,
   search_results_sorted
     { name := "youtube_videos", persist_directory := "data/vectordb",
       distance_metric := "cosine", dimension := 1,
       records := [{ id := "b", document := "db", embedding := [1],
                     metadata := [] },
                   { id := "a", document := "da", embedding := [1],
                     metadata := [] }] }
     (fun _ e => e.headD 0)
     [0] 2 none
     [("a", (1 : ℚ), ([] : Metadata)), ("b", (1 : ℚ), ([] : Metadata))]
     (by decide) (by decide) (by rfl)⟩

/-- C4: a successful filtered search never returns a result whose
metadata fails the filter predicate (whatever its distance), and a
metadata map that lacks one of the filtered keys fails the predicate
outright — so a record missing a filtered key can never appear. -/
theorem search_filter_excludes (c : Collection) (dist : List ℚ → List ℚ → ℚ)
    (q : List ℚ) (k : Int) (filt : MetadataFilter)
    (res : List (String × ℚ × Metadata))
    (h : c.search dist q k (some filt) = .ok res) :
    (∀ t ∈ res, evalFilter (some filt) t.2.2 = true) ∧
    (∀ (key : String) (cond : FilterCond) (md : Metadata),
      (key, cond) ∈ filt → md.lookup key = none →
      evalFilter (some filt) md = false) := by
  constructor
  · intro t ht
    unfold Collection.search at h
    split at h
    · exact absurd h (by simp)
    split at h
    · exact absurd h (by simp)
    injection h with hres
    subst hres
    have h2 : t ∈ List.insertionSort resultLe
        ((c.records.filter fun r => evalFilter (some filt) r.metadata).map
          (fun r => (r.id, dist q r.embedding, r.metadata))) :=
      (List.take_sublist _ _).subset ht
    have h3 := (List.perm_insertionSort resultLe _).mem_iff.mp h2
    rcases List.mem_map.mp h3 with ⟨r, hrmem, rfl⟩
    simpa using List.of_mem_filter hrmem
  · intro key cond md hmem hnone
    unfold evalFilter
    exact List.all_eq_false.mpr ⟨(key, cond), hmem, by simp [hnone]⟩

/-- Witness for search_filter_excludes: a filter requiring v ≥ 5; the
record with v = 10 passes, and a metadata map without the key v fails
the predicate. -/
theorem search_filter_excludes_witness :
    evalFilter (some [("v", FilterCond.cmp FilterOp.ge (MetaValue.i 5))])
      [("v", MetaValue.i 10)] = true ∧
    evalFilter (some [("v", FilterCond.cmp FilterOp.ge (MetaValue.i 5))])
      [("w", MetaValue.i 3)] = false :=
  ⟨(search_filter_excludes
      { name := "youtube_videos", persist_directory := "data/vectordb",
        distance_metric := "cosine", dimension := 1,
        records := [{ id := "a", document := "da", embedding := [1],
                      metadata := [("v", MetaValue.i 10)] },
                    { id := "b", document := "db", embedding := [1],
                      metadata := [("w", MetaValue.i 3)] }] }
      (fun _ e => e.headD 0) [0] 2
      [("v", FilterCond.cmp FilterOp.ge (MetaValue.i 5))]
      [("a", (1 : ℚ), ([("v", MetaValue.i 10)] : Metadata))]
      (by rfl)).1
    ("a", (1 : ℚ), ([("v", MetaValue.i 10)] : Metadata)) (by decide),
   (search_filter_excludes
      { name := "youtube_videos", persist_directory := "data/vectordb",
        distance_metric := "cosine", dimension := 1,
        records := [{ id := "a", document := "da", embedding := [1],
                      metadata := [("v", MetaValue.i 10)] },
                    { id := "b", document := "db", embedding := [1],
                      metadata := [("w", MetaValue.i 3)] }] }
      (fun _ e => e.headD 0) [0] 2
      [("v", FilterCond.cmp FilterOp.ge (MetaValue.i 5))]
      [("a", (1 : ℚ), ([("v", MetaValue.i 10)] : Metadata))]
      (by rfl)).2
    "v" (FilterCond.cmp FilterOp.ge (MetaValue.i 5)) [("w", MetaValue.i 3)]
    (by decide) (by rfl)⟩

/-- Counterexample to C7 as stated: with the store returning distance
1/3 for one record, the formatted result's similarity_score is the
rounded value round(1 - 1/3, 4) = 0.6667, which is not equal to
1 - 1/3. -/
theorem similarity_score_not_exact :
    ∃ r ∈ VideoSemanticSearch.search ["a"] [(1 : ℚ)/3] [[]],
      r.similarity_score ≠ 1 - (1 : ℚ)/3 := by
  have hs : VideoSemanticSearch.search ["a"] [(1 : ℚ)/3] [[]] =
      [{ rank := 1, video_id := "a", title := .s "N/A", channel := .s "N/A",
         views := .i 0, duration := .i 0,
         similarity_score := VideoSemanticSearch.round4 (1 - (1 : ℚ)/3),
         youtube_url := "https://youtu.be/a" }] := rfl
  refine ⟨_, by rw [hs]; exact List.mem_singleton.mpr rfl, ?_⟩
  show VideoSemanticSearch.round4 (1 - (1 : ℚ)/3) ≠ 1 - (1 : ℚ)/3
  have h1 : (1 - (1 : ℚ)/3) * 10000 = 20000/3 := by norm_num
  have h2 : ⌊(20000 : ℚ)/3⌋ = 6666 := by norm_num
  have h3 : VideoSemanticSearch.roundHalfEven ((1 - (1 : ℚ)/3) * 10000) = 6667 := by
    unfold VideoSemanticSearch.roundHalfEven
    rw [h1, h2]
    norm_num
  unfold VideoSemanticSearch.round4
  rw [h3]
  norm_num

/-- C7 (amended): for every store output, the i-th formatted result has
similarity_score equal to 1 minus the i-th distance rounded to four
decimal places (Python round), and rank equal to i + 1 (1-based
position). -/
theorem similarity_rounded_and_rank (video_ids : List String)
    (distances : List ℚ) (metadatas : List Metadata) (i : Nat)
    (hres : i < (VideoSemanticSearch.search video_ids distances metadatas).length)
    (hd : i < distances.length) :
    ((VideoSemanticSearch.search video_ids distances metadatas).get
        ⟨i, hres⟩).similarity_score
      = VideoSemanticSearch.round4 (1 - distances.get ⟨i, hd⟩) ∧
    ((VideoSemanticSearch.search video_ids distances metadatas).get
        ⟨i, hres⟩).rank = i + 1 := by
  have hz : i < (video_ids.zip (distances.zip metadatas)).length := by
    simpa [VideoSemanticSearch.search] using hres
  have hz2 : i < (distances.zip metadatas).length := by
    rw [List.length_zip] at hz
    omega
  constructor <;>
    simp [VideoSemanticSearch.search, List.get_eq_getElem, List.getElem_map,
      List.getElem_enum, List.getElem_zip]

/-- Witness for similarity_rounded_and_rank at the store output
(["a"], [1/2], [[]]) and position 0. -/
theorem similarity_rounded_and_rank_witness :
    0 < (VideoSemanticSearch.search ["a"] [(1 : ℚ)/2] [[]]).length ∧
    0 < ([(1 : ℚ)/2] : List ℚ).length ∧
    (((VideoSemanticSearch.search ["a"] [(1 : ℚ)/2] [[]]).get
        ⟨0, by decide⟩).similarity_score
      = VideoSemanticSearch.round4 (1 - ([(1 : ℚ)/2] : List ℚ).get ⟨0, by decide⟩) ∧
     ((VideoSemanticSearch.search ["a"] [(1 : ℚ)/2] [[]]).get
        ⟨0, by decide⟩).rank = 0 + 1) :=
  ⟨by decide, by decide,
   similarity_rounded_and_rank ["a"] [(1 : ℚ)/2] [[]] 0 (by decide) (by decide)⟩

/-- Counterexample to C9 as stated: a row whose id cell is missing is
not skipped and not counted as a failure — it is ingested with the
stringified id "nan". -/
theorem missing_id_row_not_skipped :
    (Migrate.prepare_data_for_db
      (fun s => if s = "[0.5]" then some [(1 : ℚ)/2] else none)
      [{ id := none, transcript := some "t", embeddings := some "[0.5]",
         title := none, channel_title := none, viewCount := none,
         duration_seconds := none, publishedAt := none, likeCount := none,
         commentCount := none }]).failed_count = 0 ∧
    (Migrate.prepare_data_for_db
      (fun s => if s = "[0.5]" then some [(1 : ℚ)/2] else none)
      [{ id := none, transcript := some "t", embeddings := some "[0.5]",
         title := none, channel_title := none, viewCount := none,
         duration_seconds := none, publishedAt := none, likeCount := none,
         commentCount := none }]).video_ids = ["nan"] :=
  ⟨rfl, rfl⟩

/-- C9 (amended): rows are skipped and counted as failures exactly when
their serialized embedding fails to parse (the batch is never aborted);
every other row is ingested, a missing id being stringified to "nan"
rather than skipped; the document defaults to "" when absent, and the
fixed metadata fields default to 0 (numeric) and "" (string) when
absent. -/
theorem prepare_data_row_contract (json_loads : String → Option (List ℚ))
    (rows : List Migrate.Row) :
    (Migrate.prepare_data_for_db json_loads rows).failed_count
      = (rows.filter (fun r =>
          (Migrate.parse_embedding_string json_loads r.embeddings).isNone)).length ∧
    (Migrate.prepare_data_for_db json_loads rows).video_ids
      = (rows.filter (fun r =>
          (Migrate.parse_embedding_string json_loads r.embeddings).isSome)).map
          (fun r => Migrate.pyStr r.id) ∧
    (Migrate.prepare_data_for_db json_loads rows).transcripts
      = (rows.filter (fun r =>
          (Migrate.parse_embedding_string json_loads r.embeddings).isSome)).map
          (fun r => r.transcript.getD "") ∧
    (Migrate.prepare_data_for_db json_loads rows).embeddings_list
      = rows.filterMap (fun r => Migrate.parse_embedding_string json_loads r.embeddings) ∧
    (Migrate.prepare_data_for_db json_loads rows).metadata_list
      = (rows.filter (fun r =>
          (Migrate.parse_embedding_string json_loads r.embeddings).isSome)).map
          Migrate.rowMetadata := by
  induction rows with
  | nil => exact ⟨rfl, rfl, rfl, rfl, rfl⟩
  | cons r rest ih =>
    obtain ⟨ih1, ih2, ih3, ih4, ih5⟩ := ih
    cases hparse : Migrate.parse_embedding_string json_loads r.embeddings with
    | none =>
      refine ⟨?_, ?_, ?_, ?_, ?_⟩ <;>
        simp [Migrate.prepare_data_for_db, hparse, List.filter_cons,
          List.filterMap_cons, ih1, ih2, ih3, ih4, ih5]
    | some emb =>
      refine ⟨?_, ?_, ?_, ?_, ?_⟩ <;>
        simp [Migrate.prepare_data_for_db, hparse, List.filter_cons,
          List.filterMap_cons, ih1, ih2, ih3, ih4, ih5]

open CleanDataset

/-- Adjacent-character invariant after whitespace collapsing: a
whitespace character is never followed by another whitespace
character. -/
def noAdjSpace (x y : Char) : Prop := pyIsSpace x = true → pyIsSpace y = false

/-- Reduction of collapseAux on a whitespace head with the flag off. -/
theorem collapseAux_cons_space_false {a : Char} {as : List Char}
    (ha : pyIsSpace a = true) :
    collapseAux false (a :: as) = ' ' :: collapseAux true as := by
  simp [collapseAux, ha]

/-- Reduction of collapseAux on a whitespace head with the flag on. -/
theorem collapseAux_cons_space_true {a : Char} {as : List Char}
    (ha : pyIsSpace a = true) :
    collapseAux true (a :: as) = collapseAux true as := by
  simp [collapseAux, ha]

/-- Reduction of collapseAux on a non-whitespace head. -/
theorem collapseAux_cons_nonspace {b : Bool} {a : Char} {as : List Char}
    (ha : pyIsSpace a = false) :
    collapseAux b (a :: as) = a :: collapseAux false as := by
  simp [collapseAux, ha]

/-- Every character produced by collapseAux is a plain space or a
non-whitespace character of the input. -/
theorem mem_collapseAux {c : Char} : ∀ {b : Bool} {l : List Char},
    c ∈ collapseAux b l → c = ' ' ∨ (c ∈ l ∧ pyIsSpace c = false) := by
  intro b l
  induction l generalizing b with
  | nil => intro hc; simp [collapseAux] at hc
  | cons a as ih =>
    intro hc
    by_cases ha : pyIsSpace a = true
    · cases b
      · rw [collapseAux_cons_space_false ha] at hc
        rcases List.mem_cons.mp hc with rfl | hc'
        · exact Or.inl rfl
        · rcases ih hc' with h | ⟨h1, h2⟩
          · exact Or.inl h
          · exact Or.inr ⟨List.mem_cons_of_mem _ h1, h2⟩
      · rw [collapseAux_cons_space_true ha] at hc
        rcases ih hc with h | ⟨h1, h2⟩
        · exact Or.inl h
        · exact Or.inr ⟨List.mem_cons_of_mem _ h1, h2⟩
    · have ha' : pyIsSpace a = false := by simpa using ha
      rw [collapseAux_cons_nonspace ha'] at hc
      rcases List.mem_cons.mp hc with rfl | hc'
      · exact Or.inr ⟨List.mem_cons_self _ _, ha'⟩
      · rcases ih hc' with h | ⟨h1, h2⟩
        · exact Or.inl h
        · exact Or.inr ⟨List.mem_cons_of_mem _ h1, h2⟩

/-- The output of collapseAux has no two adjacent whitespace characters,
and with the flag on it never starts with a whitespace character. -/
theorem collapseAux_chain : ∀ (l : List Char),
    (∀ b, (collapseAux b l).Chain' noAdjSpace) ∧
    (∀ c, (collapseAux true l).head? = some c → pyIsSpace c = false) := by
  intro l
  induction l with
  | nil =>
    refine ⟨fun b => ?_, fun c hc => ?_⟩
    · cases b <;> exact List.chain'_nil
    · simp [collapseAux] at hc
  | cons a as ih =>
    obtain ⟨ih1, ih2⟩ := ih
    by_cases ha : pyIsSpace a = true
    · refine ⟨fun b => ?_, fun c hc => ?_⟩
      · cases b
        · rw [collapseAux_cons_space_false ha]
          refine List.chain'_cons'.mpr ⟨?_, ih1 true⟩
          intro y hy
          intro _
          exact ih2 y (Option.mem_def.mp hy)
        · rw [collapseAux_cons_space_true ha]
          exact ih1 true
      · rw [collapseAux_cons_space_true ha] at hc
        exact ih2 c hc
    · have ha' : pyIsSpace a = false := by simpa using ha
      refine ⟨fun b => ?_, fun c hc => ?_⟩
      · rw [collapseAux_cons_nonspace ha']
        refine List.chain'_cons'.mpr ⟨?_, ih1 false⟩
        intro y _ hsa
        exact absurd hsa (by simp [ha'])
      · rw [collapseAux_cons_nonspace ha'] at hc
        have : a = c := by simpa using hc
        subst this
        exact ha'

/-- A list is unchanged by mapping a function that fixes each of its
members. -/
theorem map_fix {f : Char → Char} : ∀ {l : List Char},
    (∀ c ∈ l, f c = c) → l.map f = l := by
  intro l h
  induction l with
  | nil => rfl
  | cons a as ih =>
    simp only [List.map_cons]
    rw [h a (List.mem_cons_self _ _), ih (fun c hc => h c (List.mem_cons_of_mem _ hc))]

/-- Every character produced by the substitution step is in the kept
class (kept characters are, and the replacement is a space). -/
theorem keepChar_substStep {l : List Char} {c : Char} (hc : c ∈ substStep l) :
    keepChar c = true := by
  rcases List.mem_map.mp hc with ⟨a, _, hval⟩
  by_cases hk : keepChar a = true
  · rw [if_pos hk] at hval
    rw [← hval]
    exact hk
  · rw [if_neg hk] at hval
    rw [← hval]
    decide

/-- ASCII lowercasing fixes every character of the kept class (none of
them is an uppercase letter). -/
theorem pyLower_fix {c : Char} (h : keepChar c = true) : pyLower c = c := by
  unfold pyLower
  rw [if_neg]
  intro hAZ
  rw [Bool.and_eq_true, decide_eq_true_eq, decide_eq_true_eq] at hAZ
  obtain ⟨hA, hZ⟩ := hAZ
  have hA' : 65 ≤ c.toNat := hA
  have hZ' : c.toNat ≤ 90 := hZ
  unfold keepChar pyIsSpace at h
  simp only [Bool.or_eq_true, Bool.and_eq_true, decide_eq_true_eq] at h
  rcases h with (((((⟨h1, _⟩ | ⟨_, h2⟩) | ((((hs | hs) | hs) | hs) | hs) | hs) | he) | he) | he) | he
  · have h1' : 97 ≤ c.toNat := h1
    omega
  · have h2' : c.toNat ≤ 57 := h2
    omega
  · subst hs; exact absurd hA (by decide)
  · subst hs; exact absurd hA (by decide)
  · subst hs; exact absurd hA (by decide)
  · subst hs; exact absurd hA (by decide)
  · omega
  · omega
  · subst he; exact absurd hA (by decide)
  · subst he; exact absurd hA (by decide)
  · subst he; exact absurd hA (by decide)
  · subst he; exact absurd hA (by decide)

/-- The collapsing substitution is the identity on a list whose
whitespace characters are all plain spaces and never adjacent. -/
theorem collapseAux_fix : ∀ {l : List Char},
    (∀ c ∈ l, pyIsSpace c = true → c = ' ') →
    l.Chain' noAdjSpace →
    collapseAux false l = l ∧
    ((∀ c, l.head? = some c → pyIsSpace c = false) → collapseAux true l = l) := by
  intro l
  induction l with
  | nil => exact fun _ _ => ⟨rfl, fun _ => rfl⟩
  | cons a as ih =>
    intro hsp hch
    obtain ⟨ihf, iht⟩ :=
      ih (fun c hc h => hsp c (List.mem_cons_of_mem _ hc) h) hch.tail
    constructor
    · by_cases ha : pyIsSpace a = true
      · rw [collapseAux_cons_space_false ha]
        have ha' : a = ' ' := hsp a (List.mem_cons_self _ _) ha
        have hhead : ∀ c, as.head? = some c → pyIsSpace c = false := by
          intro c hc
          exact (List.chain'_cons'.mp hch).1 c (Option.mem_def.mpr hc) ha
        rw [iht hhead, ha']
      · have ha' : pyIsSpace a = false := by simpa using ha
        rw [collapseAux_cons_nonspace ha', ihf]
    · intro hhead
      have ha : pyIsSpace a = false := hhead a rfl
      rw [collapseAux_cons_nonspace ha, ihf]

/-- A nonempty prefix has the same head as the full list. -/
theorem head?_of_initial_segment {α : Type} {l₁ l₂ : List α} {c : α}
    (h : l₁ <+: l₂) (hc : l₁.head? = some c) : l₂.head? = some c := by
  rcases h with ⟨t, rfl⟩
  cases l₁ with
  | nil => cases hc
  | cons a l => simpa using hc

/-- The stripped list never starts with a whitespace character. -/
theorem stripStep_head {l : List Char} {c : Char}
    (hc : (stripStep l).head? = some c) : pyIsSpace c = false := by
  unfold stripStep at hc
  have h2 : (List.dropWhile pyIsSpace l).head? = some c :=
    head?_of_initial_segment ( List.rdropWhile_prefix _ _) hc
  have hne : List.dropWhile pyIsSpace l ≠ [] := by
    intro h0
    rw [h0] at h2
    cases h2
  have hnot := List.head_dropWhile_not pyIsSpace l hne
  rw [List.head?_eq_head hne] at h2
  rwa [Option.some.inj h2] at hnot

/-- The stripped list never ends with a whitespace character. -/
theorem stripStep_last {l : List Char} {c : Char}
    (hc : (stripStep l).getLast? = some c) : pyIsSpace c = false := by
  unfold stripStep at hc
  have hne : List.rdropWhile pyIsSpace (List.dropWhile pyIsSpace l) ≠ [] := by
    intro h0
    rw [h0] at hc
    cases hc
  have hnot := List.rdropWhile_last_not pyIsSpace
    (List.dropWhile pyIsSpace l) hne
  rw [List.getLast?_eq_getLast_of_ne_nil hne] at hc
  rw [Option.some.inj hc] at hnot
  simpa using hnot

/-- Stripping is the identity on a list that neither starts nor ends
with whitespace. -/
theorem stripStep_fix {l : List Char}
    (hh : ∀ c, l.head? = some c → pyIsSpace c = false)
    (hl : ∀ c, l.getLast? = some c → pyIsSpace c = false) :
    stripStep l = l := by
  have h1 : List.dropWhile pyIsSpace l = l := by
    cases l with
    | nil => rfl
    | cons a as =>
      have := hh a rfl
      simp [List.dropWhile_cons, this]
  unfold stripStep
  rw [h1]
  refine List.rdropWhile_eq_self_iff.mpr ?_
  intro hne
  have := hl (l.getLast hne) (List.getLast?_eq_getLast_of_ne_nil hne)
  simp [this]

/-- Stripping only removes characters. -/
theorem stripStep_subset {l : List Char} {c : Char}
    (hc : c ∈ stripStep l) : c ∈ l := by
  unfold stripStep at hc
  exact (List.dropWhile_suffix pyIsSpace).sublist.subset
    (( List.rdropWhile_prefix pyIsSpace _).sublist.subset hc)

/-- Every character of a clean_text output is in the kept class, and
the only whitespace it can contain is the plain space. -/
theorem clean_text_chars {l : List Char} {c : Char} (hc : c ∈ clean_text l) :
    keepChar c = true ∧ (pyIsSpace c = true → c = ' ') := by
  have h1 : c ∈ collapseStep (substStep (l.map pyLower)) := stripStep_subset hc
  rcases mem_collapseAux h1 with rfl | ⟨h2, h3⟩
  · exact ⟨by decide, fun _ => rfl⟩
  · exact ⟨keepChar_substStep h2, fun hs => absurd hs (by simp [h3])⟩

/-- C10: clean_text is idempotent — its output consists only of kept,
already-lowercase characters with no whitespace other than isolated
single spaces and no whitespace at either end, all of which every stage
of clean_text leaves unchanged. -/
theorem clean_text_idempotent (l : List Char) :
    clean_text (clean_text l) = clean_text l := by
  have hchars : ∀ c ∈ clean_text l,
      keepChar c = true ∧ (pyIsSpace c = true → c = ' ') :=
    fun c hc => clean_text_chars hc
  have hmap : (clean_text l).map pyLower = clean_text l :=
    map_fix (fun c hc => pyLower_fix (hchars c hc).1)
  have hsub : substStep (clean_text l) = clean_text l :=
    map_fix (fun c hc => if_pos (hchars c hc).1)
  have hchain : (clean_text l).Chain' noAdjSpace := by
    have h0 := (collapseAux_chain (substStep (l.map pyLower))).1 false
    unfold clean_text stripStep
    exact List.Chain'.prefix (h0.suffix (List.dropWhile_suffix _))
      ( List.rdropWhile_prefix _ _)
  have hhead : ∀ c, (clean_text l).head? = some c → pyIsSpace c = false :=
    fun c hc => stripStep_head hc
  have hlast : ∀ c, (clean_text l).getLast? = some c → pyIsSpace c = false :=
    fun c hc => stripStep_last hc
  have hcoll : collapseStep (clean_text l) = clean_text l :=
    (collapseAux_fix (fun c hc h => (hchars c hc).2 h) hchain).1
  have hstrip : stripStep (clean_text l) = clean_text l := stripStep_fix hhead hlast
  show stripStep (collapseStep (substStep ((clean_text l).map pyLower))) = clean_text l
  rw [hmap, hsub, hcoll, hstrip]
